import Mathlib

/-!
Verification of the `cargo` front-end dispatcher (`src/bin/cargo.rs`) and of the
`pkgid` operation (`src/cargo/ops/cargo_pkgid.rs`), as a shallow embedding.

Filesystem paths are modelled as their lists of components (`old_io::Path`),
the ambient filesystem as a pair of fallible `stat` / `readdir` functions, and
`BTreeSet<String>` as a lexicographically sorted duplicate-free list built by
ordered insertion.  Rust byte-wise string operations are rendered char-wise,
which coincides with the source on UTF-8 strings since UTF-8 preserves
code-point order.
-/

namespace CargoSpec

/-- A filesystem path, as its list of components (`old_io::Path`). -/
abbrev FsPath := List String

/-- File kind reported by `fs::stat` (`old_io::FileType`), collapsed to the
cases the dispatcher inspects. -/
inductive FKind where
  | regularFile
  | directory
  | other
deriving DecidableEq

/-- Result of `fs::stat`: file kind plus permission bits (`old_io::FileStat`). -/
structure FileStat where
  kind : FKind
  perm : Nat
deriving DecidableEq

/-- The ambient filesystem, as the two fallible operations the dispatcher
performs: `fs::stat` and `fs::readdir` (the latter returning full paths of the
directory entries, as `old_io` does). -/
structure Fs where
  stat : FsPath → Option FileStat
  readdir : FsPath → Option (List FsPath)

/-- The `old_io::OTHER_EXECUTE` permission bit, `0o001`. -/
def OTHER_EXECUTE : Nat := 1

/-- `old_io::Path::exists`, which is defined in `old_io` as `fs::stat`
succeeding. -/
def pathExists (fs : Fs) (p : FsPath) : Bool := (fs.stat p).isSome

/-- `fn is_executable(path: &Path) -> bool`: true exactly on a successful stat
reporting a regular file whose permissions contain `OTHER_EXECUTE`. -/
def is_executable (fs : Fs) (path : FsPath) : Bool :=
  match fs.stat path with
  | some st => st.kind == FKind.regularFile && (st.perm &&& OTHER_EXECUTE == OTHER_EXECUTE)
  | none => false

/-- `fn list_command_directory() -> Vec<Path>`: starts from an empty vector;
if `env::current_exe()` succeeds, pops the file name and pushes
`dir.join("../lib/cargo")` then `dir`; then extends with every entry of the
`PATH` variable (already split, as `env::split_paths` yields them, order
preserved). -/
def list_command_directory (currentExe : Option FsPath) (pathVar : Option (List FsPath)) :
    List FsPath :=
  let dirs : List FsPath := []
  let dirs := match currentExe with
    | some exe =>
        let dir := exe.dropLast
        dirs ++ [dir ++ ["..", "lib", "cargo"], dir]
    | none => dirs
  match pathVar with
  | some entries => dirs ++ entries
  | none => dirs

/-- The candidate file name `format!("cargo-{}{}", cmd, env::consts::EXE_SUFFIX)`,
with the platform executable suffix a parameter. -/
def commandExe (exeSuffix cmd : String) : String := "cargo-" ++ cmd ++ exeSuffix

/-- Termination of a child process (`old_io::process::ProcessExit`), restricted
to the two constructors `execute_subcommand` matches on. -/
inductive ProcessExit where
  | exitStatus (code : Nat)
  | exitSignal (signal : Nat)
deriving DecidableEq

/-- The `old_io::IoErrorKind` cases distinguished by `execute_subcommand`:
`FileNotFound` versus everything else. -/
inductive IoErrorKind where
  | fileNotFound
  | otherIoError
deriving DecidableEq

/-- An `old_io::IoError`: its kind, plus its rendering used by
`format!("Subcommand failed to run: {}", err)`. -/
structure IoError where
  kind : IoErrorKind
  detail : String
deriving DecidableEq

/-- The ambient process environment of `src/bin/cargo.rs`: the platform
`EXE_SUFFIX`, the filesystem, `env::current_exe()`, the split `PATH` variable,
and the behaviour of spawning a child process (`Command::status()`). -/
structure Env where
  exeSuffix : String
  fs : Fs
  currentExe : Option FsPath
  pathVar : Option (List FsPath)
  spawn : FsPath → List String → Except IoError ProcessExit

/-- `fn find_command(cmd: &str) -> Option<Path>`: the first candidate path
`dir.join(command_exe)`, in `list_command_directory` order, for which
`Path::exists` holds.  No executability or file-kind check is made here. -/
def find_command (env : Env) (cmd : String) : Option FsPath :=
  let command_exe := commandExe env.exeSuffix cmd
  let dirs := list_command_directory env.currentExe env.pathVar
  (dirs.map (fun dir => dir ++ [command_exe])).find? (fun path => pathExists env.fs path)

/-- Insertion into the sorted duplicate-free list modelling
`BTreeSet<String>`; `BTreeSet` orders strings bytewise, which on UTF-8 agrees
with the char-list order used here. -/
def insertSorted (a : String) : List String → List String
  | [] => [a]
  | b :: l =>
      if a.data < b.data then a :: b :: l
      else if a = b then b :: l
      else b :: insertSorted a l

/-- The builtin command names produced by `each_subcommand!`, each
`stringify!($cmd).replace("_", "-")`, in macro order. -/
def builtin_names : List String :=
  ["bench", "build", "clean", "doc", "fetch", "generate-lockfile", "git-checkout",
   "help", "locate-project", "login", "new", "owner", "package", "pkgid",
   "publish", "read-manifest", "run", "search", "test", "update",
   "verify-project", "version", "yank"]

/-- One directory entry of the `list_commands` scan: `entry.filename_str()` is
the last path component; the entry contributes exactly when its file name has
the `cargo-` prefix and the `EXE_SUFFIX` suffix and `is_executable` holds, in
which case the name between prefix and suffix is inserted. -/
def scan_entry (env : Env) (cs : List String) (entry : FsPath) : List String :=
  match entry.getLast? with
  | none => cs
  | some filename =>
      if ("cargo-".data <+: filename.data) ∧ (env.exeSuffix.data <:+ filename.data)
          ∧ is_executable env.fs entry = true then
        insertSorted ((filename.drop "cargo-".length).dropRight env.exeSuffix.length) cs
      else cs

/-- One directory of the `list_commands` scan: a failing `fs::readdir`
contributes nothing (`_ => continue`). -/
def scan_dir (env : Env) (cs : List String) (dir : FsPath) : List String :=
  match env.fs.readdir dir with
  | none => cs
  | some entries => entries.foldl (scan_entry env) cs

/-- `fn list_commands() -> BTreeSet<String>`: scan every directory of
`list_command_directory`, then insert every builtin name. -/
def list_commands (env : Env) : List String :=
  let commands := (list_command_directory env.currentExe env.pathVar).foldl (scan_dir env) []
  builtin_names.foldl (fun cs c => insertSorted c cs) commands

/-- Modelled from the spec: `cargo::util::lev_distance` lives outside `src/`
(in `cargo::util`); the spec defines it as the classic insert/delete/substitute
edit distance with unit cost, which is `levenshtein` at `defaultCost`. -/
def lev_distance (a b : String) : Nat :=
  levenshtein Levenshtein.defaultCost a.data b.data

/-- One step of old-Rust `Iterator::min_by` (keyed by the first component):
a fold that replaces the current minimum only on strictly smaller keys, hence
keeps the first-encountered minimum on ties. -/
def minStep (mn : Option (Nat × String)) (x : Nat × String) : Option (Nat × String) :=
  match mn with
  | none => some x
  | some y => if x.1 < y.1 then some x else some y

/-- Old-Rust `Iterator::min_by` on `(distance, name)` pairs, keyed by the
distance. -/
def minByFst (l : List (Nat × String)) : Option (Nat × String) :=
  l.foldl minStep none

/-- The body of `fn find_closest`, with the candidate set (obtained from
`list_commands()` in the source) made explicit: map each candidate to its
`lev_distance` from `cmd`, keep distances `< 4`, and take the minimum by
distance. -/
def find_closest_in (cands : List String) (cmd : String) : Option String :=
  match minByFst ((cands.map (fun c => (lev_distance c cmd, c))).filter
      (fun p => decide (p.1 < 4))) with
  | some p => some p.2
  | none => none

/-- `fn find_closest(cmd: &str) -> Option<String>`. -/
def find_closest (env : Env) (cmd : String) : Option String :=
  find_closest_in (list_commands env) cmd

/-- What `execute_subcommand` hands to `handle_error`: either no error at all,
or a `CliError::new(msg, code)` whose message and exit code the top level
reports. -/
inductive Outcome where
  | ok
  | error (msg : String) (code : Int)
deriving DecidableEq

/-- The `i as i32` cast applied to the child's status. -/
def asI32 (n : Nat) : Int :=
  let m : Nat := n % 2 ^ 32
  if m < 2 ^ 31 then (m : Int) else (m : Int) - 2 ^ 32

/-- `fn execute_subcommand`: resolve the command (building the not-found
message via `find_closest` on miss), spawn it, and translate the child's
termination, mirroring the five match arms of the source. -/
def execute_subcommand (env : Env) (cmd : String) (args : List String) : Outcome :=
  match find_command env cmd with
  | none =>
      let msg := match find_closest env cmd with
        | some closest => "No such subcommand\n\n\tDid you mean `" ++ closest ++ "`?\n"
        | none => "No such subcommand"
      Outcome.error msg 127
  | some command =>
      match env.spawn command args with
      | Except.ok (ProcessExit.exitStatus 0) => Outcome.ok
      | Except.ok (ProcessExit.exitStatus i) => Outcome.error "" (asI32 i)
      | Except.ok (ProcessExit.exitSignal i) =>
          Outcome.error ("subcommand failed with signal: " ++ toString i) (asI32 i)
      | Except.error e =>
          if e.kind == IoErrorKind.fileNotFound then Outcome.error "No such subcommand" 127
          else Outcome.error ("Subcommand failed to run: " ++ e.detail) 127

/-- The two ways `fn execute` can dispatch a normalized command name: one of
the `each_subcommand!(cmd)` builtin arms, or the fall-through call to
`execute_subcommand`. -/
inductive Dispatched where
  | builtin (name : String)
  | plugin (outcome : Outcome)
deriving DecidableEq

/-- The dispatch tail of `fn execute` (after argument normalization): the
`cmd!` macro arms test the builtins in `each_subcommand!` order and return on
the first hit; only when all miss is `execute_subcommand` reached. -/
def execute (env : Env) (command : String) (args : List String) : Dispatched :=
  match builtin_names.find? (fun n => command == n) with
  | some n => Dispatched.builtin n
  | none => Dispatched.plugin (execute_subcommand env command args)

/-- Opaque handle to a `PathSource` collaborator instance
(`sources::PathSource`, outside `src/`). -/
structure PathSrc where
  tag : Nat
deriving DecidableEq

/-- Opaque `SourceId` (`core`, outside `src/`). -/
structure SourceId where
  tag : Nat
deriving DecidableEq

/-- A fully qualified package identifier (`core::PackageId`, outside `src/`):
name, exact version, source. -/
structure PackageId where
  name : String
  version : String
  source_id : SourceId
deriving DecidableEq

/-- The root package of a `PathSource`: its root directory and identifier. -/
structure Package where
  root : FsPath
  package_id : PackageId
deriving DecidableEq

/-- The dependency snapshot loaded from the lock file; `pkgid` only calls its
`query` collaborator, whose matching rules live outside this component. -/
structure Resolve where
  query : String → Except String PackageId

/-- Modelled from the spec: `PackageIdSpec::from_package_id` (in `core`, not
under `src/`) renders an identifier in specifier form — name, exact version
and source. -/
structure PackageIdSpec where
  name : String
  version : String
  source_id : SourceId
deriving DecidableEq

/-- Modelled from the spec: the specifier-form rendering of an identifier
keeps its name, exact version and source. -/
def PackageIdSpec.from_package_id (p : PackageId) : PackageIdSpec :=
  ⟨p.name, p.version, p.source_id⟩

/-- The collaborators `pkgid` calls, all outside `src/` and therefore opaque
interfaces here: `PathSource::for_path`, `Source::update`,
`PathSource::root_package`, and `ops::load_lockfile` (which yields `Ok(None)`
when no lock file is present). -/
structure PkgidWorld where
  for_path : FsPath → Except String PathSrc
  update : PathSrc → Except String PathSrc
  root_package : PathSrc → Except String Package
  load_lockfile : FsPath → SourceId → Except String (Option Resolve)

/-- `pub fn pkgid` from `src/cargo/ops/cargo_pkgid.rs`: build and refresh the
path source for the manifest's directory, take its root package, load the lock
file `package.root().join("Cargo.lock")` (erroring if the loader yields none),
then resolve the optional specifier through the snapshot, or fall back to the
package's own identifier. -/
def pkgid (w : PkgidWorld) (manifest_path : FsPath) (spec : Option String) :
    Except String PackageIdSpec := do
  let source ← w.for_path manifest_path.dropLast
  let source ← w.update source
  let package ← w.root_package source
  let lockfile := package.root ++ ["Cargo.lock"]
  let source_id := package.package_id.source_id
  match (← w.load_lockfile lockfile source_id) with
  | none => Except.error "A Cargo.lock must exist for this command"
  | some resolve =>
      match spec with
      | some s => do
          let p ← resolve.query s
          pure (PackageIdSpec.from_package_id p)
      | none => pure (PackageIdSpec.from_package_id package.package_id)

/-- A directory entry passes the whole `list_commands` filter — naming
convention and `is_executable` — and yields the command name `c`. -/
def entry_contributes (env : Env) (entry : FsPath) (c : String) : Prop :=
  ∃ filename, entry.getLast? = some filename
    ∧ ("cargo-".data <+: filename.data)
    ∧ (env.exeSuffix.data <:+ filename.data)
    ∧ is_executable env.fs entry = true
    ∧ c = (filename.drop "cargo-".length).dropRight env.exeSuffix.length

/-- Some entry of a readable directory contributes the command name `c`. -/
def dir_contributes (env : Env) (dir : FsPath) (c : String) : Prop :=
  ∃ entries, env.fs.readdir dir = some entries
    ∧ ∃ e ∈ entries, entry_contributes env e c

/-! Concrete states used by witnesses and counterexamples. -/

/-- An environment with no current executable, no `PATH`, and a filesystem on
which every operation fails. -/
def envEmpty : Env :=
  { exeSuffix := ""
    fs := { stat := fun _ => none, readdir := fun _ => none }
    currentExe := none
    pathVar := none
    spawn := fun _ _ => Except.error ⟨IoErrorKind.otherIoError, ""⟩ }

/-- A filesystem whose only object is a *directory* named `d/cargo-foo` with
no permission bits at all. -/
def fsDirPlugin : Fs :=
  { stat := fun p => if p = ["d", "cargo-foo"] then some ⟨FKind.directory, 0⟩ else none
    readdir := fun _ => none }

/-- Search path `[d]` over `fsDirPlugin`. -/
def envDirPlugin : Env :=
  { exeSuffix := ""
    fs := fsDirPlugin
    currentExe := none
    pathVar := some [["d"]]
    spawn := fun _ _ => Except.error ⟨IoErrorKind.otherIoError, ""⟩ }

/-- A filesystem with a single world-executable regular file `d/cargo-foo`. -/
def fsFoo : Fs :=
  { stat := fun p => if p = ["d", "cargo-foo"] then some ⟨FKind.regularFile, 0o755⟩ else none
    readdir := fun p => if p = ["d"] then some [["d", "cargo-foo"]] else none }

/-- `fsFoo` with a child that exits with code 3. -/
def envExit3 : Env :=
  { exeSuffix := ""
    fs := fsFoo
    currentExe := none
    pathVar := some [["d"]]
    spawn := fun _ _ => Except.ok (ProcessExit.exitStatus 3) }

/-- `fsFoo` with a child that is terminated by signal 9. -/
def envSig9 : Env :=
  { exeSuffix := ""
    fs := fsFoo
    currentExe := none
    pathVar := some [["d"]]
    spawn := fun _ _ => Except.ok (ProcessExit.exitSignal 9) }

/-- A filesystem with a single world-executable regular file `d/cargo-build`. -/
def fsBuild : Fs :=
  { stat := fun p => if p = ["d", "cargo-build"] then some ⟨FKind.regularFile, 0o755⟩ else none
    readdir := fun p => if p = ["d"] then some [["d", "cargo-build"]] else none }

/-- `fsBuild` with a spawn that fails with `FileNotFound` (the file
disappeared between resolution and launch). -/
def envFNF : Env :=
  { exeSuffix := ""
    fs := fsBuild
    currentExe := none
    pathVar := some [["d"]]
    spawn := fun _ _ => Except.error ⟨IoErrorKind.fileNotFound, "nf"⟩ }

/-- A filesystem whose only file `d/cargo-foo` is regular with permissions
`0o750`: owner and group execute bits set, other-execute clear. -/
def fsGroupExec : Fs :=
  { stat := fun p => if p = ["d", "cargo-foo"] then some ⟨FKind.regularFile, 0o750⟩ else none
    readdir := fun p => if p = ["d"] then some [["d", "cargo-foo"]] else none }

/-- Search path `[d]` over `fsGroupExec`. -/
def envGroupExec : Env :=
  { exeSuffix := ""
    fs := fsGroupExec
    currentExe := none
    pathVar := some [["d"]]
    spawn := fun _ _ => Except.error ⟨IoErrorKind.otherIoError, ""⟩ }

/-- A concrete root package for `pkgid` scenarios. -/
def pkgT : Package := ⟨["proj"], ⟨"proj", "0.1.0", ⟨0⟩⟩⟩

/-- A snapshot whose `query` collaborator is never consulted in the scenarios
used here. -/
def resolveT : Resolve := ⟨fun _ => Except.error "unused"⟩

/-- A `pkgid` world whose lock-file loader finds no lock file. -/
def worldNoLock : PkgidWorld :=
  { for_path := fun _ => Except.ok ⟨0⟩
    update := fun s => Except.ok s
    root_package := fun _ => Except.ok pkgT
    load_lockfile := fun _ _ => Except.ok none }

/-- A `pkgid` world whose lock-file loader succeeds. -/
def worldLock : PkgidWorld :=
  { for_path := fun _ => Except.ok ⟨0⟩
    update := fun s => Except.ok s
    root_package := fun _ => Except.ok pkgT
    load_lockfile := fun _ _ => Except.ok (some resolveT) }

/-! Helper lemmas. -/

theorem data_lt_iff {a b : String} : a.data < b.data ↔ a < b :=
  String.lt_iff_toList_lt.symm

theorem mem_insertSorted {a c : String} : ∀ {l : List String},
    c ∈ insertSorted a l ↔ c = a ∨ c ∈ l := by
  intro l
  induction l with
  | nil => simp [insertSorted]
  | cons b t ih =>
    unfold insertSorted
    split
    · simp [List.mem_cons]
    · split
      · rename_i hab
        subst hab
        simp only [List.mem_cons]
        constructor
        · intro h; exact Or.inr h
        · rintro (rfl | h)
          · exact Or.inl rfl
          · exact h
      · simp only [List.mem_cons, ih]
        tauto

theorem sorted_insertSorted (a : String) : ∀ {l : List String},
    l.Sorted (· < ·) → (insertSorted a l).Sorted (· < ·) := by
  intro l
  induction l with
  | nil =>
    intro _
    simp [insertSorted]
  | cons b t ih =>
    intro h
    rw [List.sorted_cons] at h
    obtain ⟨hb, ht⟩ := h
    unfold insertSorted
    split
    · rename_i hab
      rw [List.sorted_cons]
      refine ⟨?_, List.sorted_cons.mpr ⟨hb, ht⟩⟩
      intro x hx
      rcases List.mem_cons.mp hx with rfl | hx
      · exact data_lt_iff.mp hab
      · exact lt_trans (data_lt_iff.mp hab) (hb x hx)
    · split
      · exact List.sorted_cons.mpr ⟨hb, ht⟩
      · rename_i hnlt hne
        rw [List.sorted_cons]
        refine ⟨?_, ih ht⟩
        intro x hx
        rcases mem_insertSorted.mp hx with rfl | hx
        · rcases lt_trichotomy x b with h1 | h1 | h1
          · exact absurd (data_lt_iff.mpr h1) hnlt
          · exact absurd h1 hne
          · exact h1
        · exact hb x hx

theorem foldl_preserve {α β : Type} (P : β → Prop) (f : β → α → β)
    (hf : ∀ b a, P b → P (f b a)) :
    ∀ (l : List α) (b : β), P b → P (l.foldl f b) := by
  intro l
  induction l with
  | nil => intro b hb; exact hb
  | cons x t ih => intro b hb; exact ih (f b x) (hf b x hb)

theorem mem_foldl_insertSorted {c : String} : ∀ (bs acc : List String),
    c ∈ bs.foldl (fun cs b => insertSorted b cs) acc ↔ c ∈ bs ∨ c ∈ acc := by
  intro bs
  induction bs with
  | nil => intro acc; simp
  | cons b t ih =>
    intro acc
    rw [List.foldl_cons, ih, mem_insertSorted]
    simp only [List.mem_cons]
    tauto

theorem sorted_scan_entry (env : Env) (cs : List String) (e : FsPath)
    (h : cs.Sorted (· < ·)) : (scan_entry env cs e).Sorted (· < ·) := by
  unfold scan_entry
  split
  · exact h
  · split
    · exact sorted_insertSorted _ h
    · exact h

theorem sorted_scan_dir (env : Env) (cs : List String) (dir : FsPath)
    (h : cs.Sorted (· < ·)) : (scan_dir env cs dir).Sorted (· < ·) := by
  unfold scan_dir
  split
  · exact h
  · exact foldl_preserve (List.Sorted (· < ·)) (scan_entry env)
      (fun b a hb => sorted_scan_entry env b a hb) _ cs h

theorem sorted_list_commands (env : Env) : (list_commands env).Sorted (· < ·) := by
  unfold list_commands
  refine foldl_preserve (List.Sorted (· < ·)) _
    (fun b a hb => sorted_insertSorted a hb) _ _ ?_
  refine foldl_preserve (List.Sorted (· < ·)) _
    (fun b a hb => sorted_scan_dir env b a hb) _ _ ?_
  simp

theorem find?_decomp {α : Type} (p : α → Bool) : ∀ (l : List α) (x : α),
    l.find? p = some x →
    ∃ l₁ l₂, l = l₁ ++ x :: l₂ ∧ p x = true ∧ ∀ y ∈ l₁, p y = false := by
  intro l
  induction l with
  | nil => intro x h; cases h
  | cons a t ih =>
    intro x h
    cases hpa : p a with
    | true =>
      rw [List.find?_cons_of_pos _ hpa] at h
      injection h with h
      subst h
      exact ⟨[], t, rfl, hpa, by simp⟩
    | false =>
      rw [List.find?_cons_of_neg _ (by simp [hpa])] at h
      obtain ⟨l₁, l₂, rfl, hx, hall⟩ := ih x h
      refine ⟨a :: l₁, l₂, rfl, hx, ?_⟩
      intro y hy
      rcases List.mem_cons.mp hy with rfl | hy
      · exact hpa
      · exact hall y hy

theorem foldl_minStep_spec : ∀ (l : List (Nat × String)) (y : Nat × String),
    ∃ x, l.foldl minStep (some y) = some x
      ∧ (∀ z ∈ y :: l, x.1 ≤ z.1)
      ∧ ∃ p q, y :: l = p ++ x :: q ∧ ∀ z ∈ p, x.1 < z.1 := by
  intro l
  induction l with
  | nil =>
    intro y
    refine ⟨y, rfl, ?_, [], [], rfl, by simp⟩
    intro z hz
    rcases List.mem_cons.mp hz with rfl | hz
    · exact le_refl _
    · cases hz
  | cons a t ih =>
    intro y
    rw [List.foldl_cons]
    by_cases hay : a.1 < y.1
    · rw [show minStep (some y) a = some a by simp [minStep, hay]]
      obtain ⟨x, hfold, hmin, p, q, hdec, hp⟩ := ih a
      have hxa : x.1 ≤ a.1 := hmin a (List.mem_cons_self a t)
      refine ⟨x, hfold, ?_, y :: p, q, by rw [List.cons_append, ← hdec], ?_⟩
      · intro z hz
        rcases List.mem_cons.mp hz with rfl | hz
        · exact le_of_lt (lt_of_le_of_lt hxa hay)
        · exact hmin z hz
      · intro z hz
        rcases List.mem_cons.mp hz with rfl | hz
        · exact lt_of_le_of_lt hxa hay
        · exact hp z hz
    · rw [show minStep (some y) a = some y by simp [minStep, hay]]
      obtain ⟨x, hfold, hmin, p, q, hdec, hp⟩ := ih y
      refine ⟨x, hfold, ?_, ?_⟩
      · intro z hz
        rcases List.mem_cons.mp hz with rfl | hz
        · exact hmin z (List.mem_cons_self z t)
        · rcases List.mem_cons.mp hz with rfl | hz
          · exact le_trans (hmin y (List.mem_cons_self y t)) (le_of_not_lt hay)
          · exact hmin z (List.mem_cons_of_mem y hz)
      · cases p with
        | nil =>
          simp only [List.nil_append] at hdec
          have h1 : y = x := by injection hdec with h1 h2
          subst h1
          exact ⟨[], a :: t, rfl, by simp⟩
        | cons ph pt =>
          rw [List.cons_append] at hdec
          have h1 : y = ph := by injection hdec with h1 h2
          have h2 : t = pt ++ x :: q := by injection hdec with h1 h2
          subst h1
          refine ⟨y :: a :: pt, q, by rw [h2]; simp, ?_⟩
          intro z hz
          rcases List.mem_cons.mp hz with rfl | hz
          · exact hp z (List.mem_cons_self z pt)
          · rcases List.mem_cons.mp hz with rfl | hz
            · exact lt_of_lt_of_le (hp y (List.mem_cons_self y pt)) (le_of_not_lt hay)
            · exact hp z (List.mem_cons_of_mem _ hz)

theorem minByFst_eq_none {l : List (Nat × String)} : minByFst l = none ↔ l = [] := by
  constructor
  · intro h
    cases l with
    | nil => rfl
    | cons a t =>
      obtain ⟨x, hfold, _, _⟩ := foldl_minStep_spec t a
      rw [minByFst, List.foldl_cons, show minStep none a = some a from rfl, hfold] at h
      cases h
  · rintro rfl
    rfl

theorem minByFst_spec {l : List (Nat × String)} {x : Nat × String}
    (h : minByFst l = some x) :
    (∀ z ∈ l, x.1 ≤ z.1) ∧ ∃ p q, l = p ++ x :: q ∧ ∀ z ∈ p, x.1 < z.1 := by
  cases l with
  | nil => cases h
  | cons a t =>
    obtain ⟨x', hfold, hmin, p, q, hdec, hp⟩ := foldl_minStep_spec t a
    rw [minByFst, List.foldl_cons, show minStep none a = some a from rfl, hfold] at h
    have hx : x' = x := by injection h
    subst hx
    exact ⟨hmin, p, q, hdec, hp⟩

theorem filter_map_decomp {α β : Type} (f : α → β) (g : β → Bool) :
    ∀ (l : List α) (p q : List β) (x : β),
      (l.map f).filter g = p ++ x :: q →
      ∃ l₁ a l₂, l = l₁ ++ a :: l₂ ∧ f a = x ∧ (l₁.map f).filter g = p := by
  intro l
  induction l with
  | nil =>
    intro p q x h
    simp only [List.map_nil, List.filter_nil] at h
    rcases p with _ | ⟨ph, pt⟩ <;> simp at h
  | cons a t ih =>
    intro p q x h
    rw [List.map_cons] at h
    cases hg : g (f a) with
    | true =>
      rw [List.filter_cons_of_pos hg] at h
      cases p with
      | nil =>
        simp only [List.nil_append] at h
        have h1 : f a = x := by injection h
        exact ⟨[], a, t, rfl, h1, by simp⟩
      | cons ph pt =>
        rw [List.cons_append] at h
        have h1 : f a = ph := by injection h
        have h2 : (t.map f).filter g = pt ++ x :: q := by injection h
        obtain ⟨l₁, b, l₂, rfl, hfb, hfil⟩ := ih pt q x h2
        refine ⟨a :: l₁, b, l₂, rfl, hfb, ?_⟩
        rw [List.map_cons, List.filter_cons_of_pos hg, hfil, h1]
    | false =>
      rw [List.filter_cons_of_neg (by simp [hg])] at h
      obtain ⟨l₁, b, l₂, rfl, hfb, hfil⟩ := ih p q x h
      refine ⟨a :: l₁, b, l₂, rfl, hfb, ?_⟩
      rw [List.map_cons, List.filter_cons_of_neg (by simp [hg]), hfil]

theorem find_closest_in_eq_none {cands : List String} {cmd : String} :
    find_closest_in cands cmd = none ↔ ∀ c ∈ cands, 4 ≤ lev_distance c cmd := by
  constructor
  · intro h c hc
    by_contra hlt
    push_neg at hlt
    have hmem : (lev_distance c cmd, c) ∈
        (cands.map (fun c => (lev_distance c cmd, c))).filter
          (fun p => decide (p.1 < 4)) := by
      rw [List.mem_filter]
      exact ⟨List.mem_map.mpr ⟨c, hc, rfl⟩, by simpa using hlt⟩
    unfold find_closest_in at h
    cases hm : minByFst ((cands.map (fun c => (lev_distance c cmd, c))).filter
        (fun p => decide (p.1 < 4))) with
    | none =>
      rw [minByFst_eq_none.mp hm] at hmem
      cases hmem
    | some x =>
      rw [hm] at h
      cases h
  · intro h
    have hnil : (cands.map (fun c => (lev_distance c cmd, c))).filter
        (fun p => decide (p.1 < 4)) = [] := by
      rw [List.filter_eq_nil_iff]
      intro a ha
      obtain ⟨c, hc, rfl⟩ := List.mem_map.mp ha
      simpa using h c hc
    unfold find_closest_in
    rw [hnil]
    rfl

theorem find_closest_in_eq_some {cands : List String} {cmd : String} {c : String}
    (h : find_closest_in cands cmd = some c) :
    c ∈ cands ∧ lev_distance c cmd < 4
    ∧ (∀ d ∈ cands, lev_distance d cmd < 4 → lev_distance c cmd ≤ lev_distance d cmd)
    ∧ ∃ l₁ l₂, cands = l₁ ++ c :: l₂
        ∧ ∀ d ∈ l₁, lev_distance d cmd < 4 → lev_distance c cmd < lev_distance d cmd := by
  unfold find_closest_in at h
  cases hm : minByFst ((cands.map (fun c => (lev_distance c cmd, c))).filter
      (fun p => decide (p.1 < 4))) with
  | none =>
    rw [hm] at h
    cases h
  | some x =>
    rw [hm] at h
    have hc : x.2 = c := by injection h
    subst hc
    obtain ⟨hmin, p, q, hdec, hp⟩ := minByFst_spec hm
    have hxmem : x ∈ (cands.map (fun c => (lev_distance c cmd, c))).filter
        (fun p => decide (p.1 < 4)) := by
      rw [hdec]
      exact List.mem_append.mpr (Or.inr (List.mem_cons_self x q))
    have hxf := List.mem_filter.mp hxmem
    obtain ⟨a, ha, hfa⟩ := List.mem_map.mp hxf.1
    have hx2 : x.2 = a := by rw [← hfa]
    have hx1 : x.1 = lev_distance a cmd := by rw [← hfa]
    have hx1c : x.1 = lev_distance x.2 cmd := by rw [hx2, hx1]
    have hlt : lev_distance x.2 cmd < 4 := by
      rw [← hx1c]
      exact of_decide_eq_true hxf.2
    refine ⟨by rw [hx2]; exact ha, hlt, ?_, ?_⟩
    · intro d hd hd4
      have hdm : (lev_distance d cmd, d) ∈
          (cands.map (fun c => (lev_distance c cmd, c))).filter
            (fun p => decide (p.1 < 4)) := by
        rw [List.mem_filter]
        exact ⟨List.mem_map.mpr ⟨d, hd, rfl⟩, by simpa using hd4⟩
      have := hmin _ hdm
      rw [hx1c] at this
      exact this
    · obtain ⟨l₁, b, l₂, hcands, hfb, hfil⟩ :=
        filter_map_decomp (fun c => (lev_distance c cmd, c)) (fun p => decide (p.1 < 4))
          cands p q x hdec
      have hb : b = x.2 := by rw [← hfb]
      refine ⟨l₁, l₂, by rw [hcands, hb], ?_⟩
      intro d hd hd4
      have hdm : (lev_distance d cmd, d) ∈ (l₁.map (fun c => (lev_distance c cmd, c))).filter
          (fun p => decide (p.1 < 4)) := by
        rw [List.mem_filter]
        exact ⟨List.mem_map.mpr ⟨d, hd, rfl⟩, by simpa using hd4⟩
      rw [hfil] at hdm
      have := hp _ hdm
      rw [hx1c] at this
      exact this

theorem mem_scan_entry {env : Env} {cs : List String} {e : FsPath} {c : String}
    (h : c ∈ scan_entry env cs e) : c ∈ cs ∨ entry_contributes env e c := by
  unfold scan_entry at h
  split at h
  · exact Or.inl h
  · rename_i filename hfn
    split at h
    · rename_i hcond
      rcases mem_insertSorted.mp h with rfl | h
      · exact Or.inr ⟨filename, hfn, hcond.1, hcond.2.1, hcond.2.2, rfl⟩
      · exact Or.inl h
    · exact Or.inl h

theorem mem_foldl_scan_entry (env : Env) : ∀ (es : List FsPath) (acc : List String)
    (c : String), c ∈ es.foldl (scan_entry env) acc →
    c ∈ acc ∨ ∃ e ∈ es, entry_contributes env e c := by
  intro es
  induction es with
  | nil => intro acc c h; exact Or.inl h
  | cons e t ih =>
    intro acc c h
    rw [List.foldl_cons] at h
    rcases ih (scan_entry env acc e) c h with h | ⟨e', he', hc⟩
    · rcases mem_scan_entry h with h | h
      · exact Or.inl h
      · exact Or.inr ⟨e, List.mem_cons_self e t, h⟩
    · exact Or.inr ⟨e', List.mem_cons_of_mem _ he', hc⟩

theorem mem_scan_dir {env : Env} {acc : List String} {dir : FsPath} {c : String}
    (h : c ∈ scan_dir env acc dir) : c ∈ acc ∨ dir_contributes env dir c := by
  unfold scan_dir at h
  split at h
  · exact Or.inl h
  · rename_i entries hrd
    rcases mem_foldl_scan_entry env entries acc c h with h | ⟨e, he, hc⟩
    · exact Or.inl h
    · exact Or.inr ⟨entries, hrd, e, he, hc⟩

theorem mem_foldl_scan_dir (env : Env) : ∀ (ds : List FsPath) (acc : List String)
    (c : String), c ∈ ds.foldl (scan_dir env) acc →
    c ∈ acc ∨ ∃ dir ∈ ds, dir_contributes env dir c := by
  intro ds
  induction ds with
  | nil => intro acc c h; exact Or.inl h
  | cons d t ih =>
    intro acc c h
    rw [List.foldl_cons] at h
    rcases ih (scan_dir env acc d) c h with h | ⟨d', hd', hc⟩
    · rcases mem_scan_dir h with h | h
      · exact Or.inl h
      · exact Or.inr ⟨d, List.mem_cons_self d t, h⟩
    · exact Or.inr ⟨d', List.mem_cons_of_mem _ hd', hc⟩

theorem mem_list_commands {env : Env} {c : String} (h : c ∈ list_commands env) :
    c ∈ builtin_names
    ∨ ∃ dir ∈ list_command_directory env.currentExe env.pathVar,
        dir_contributes env dir c := by
  unfold list_commands at h
  rcases (mem_foldl_insertSorted builtin_names _).mp h with h | h
  · exact Or.inl h
  · rcases mem_foldl_scan_dir env _ [] c h with h | h
    · cases h
    · exact Or.inr h

/-! Claim theorems. -/

theorem except_bind_ok {ε α β : Type} (a : α) (f : α → Except ε β) :
    (Except.ok a : Except ε α) >>= f = f a := rfl

/-- C8: the search directories are, in order, the executable's directory
joined with `../lib/cargo`, the executable's directory itself, then every
`PATH` entry in original order; the first two are absent when the
executable's location cannot be determined. -/
theorem claim8_search_directory_order (exe : FsPath) (pathVar : Option (List FsPath)) :
    list_command_directory (some exe) pathVar
      = (exe.dropLast ++ ["..", "lib", "cargo"]) :: exe.dropLast :: pathVar.getD []
    ∧ list_command_directory none pathVar = pathVar.getD [] := by
  cases pathVar <;> simp [list_command_directory]

/-- C1, counterexample: `find_command` resolves `foo` to `d/cargo-foo` even
though that path is a directory with no permission bits whatsoever — the
resolved path is neither a regular file nor executable, contradicting the
claim that the returned path satisfies the executability predicate. -/
theorem claim1_counterexample :
    find_command envDirPlugin "foo" = some ["d", "cargo-foo"]
    ∧ fsDirPlugin.stat ["d", "cargo-foo"] = some ⟨FKind.directory, 0⟩
    ∧ is_executable fsDirPlugin ["d", "cargo-foo"] = false := by
  refine ⟨by decide, by decide, by decide⟩

/-- C1, amended: `find_command` returns the path of the first candidate in
search-directory order whose file merely *exists* (its `stat` succeeds) — no
regular-file or execute-permission check is applied — and `none` rather than
an error when no directory has such a file. -/
theorem claim1_resolve_first_existing (env : Env) (cmd : String) :
    (find_command env cmd = none ↔
      ∀ dir ∈ list_command_directory env.currentExe env.pathVar,
        pathExists env.fs (dir ++ [commandExe env.exeSuffix cmd]) = false)
    ∧ ∀ p, find_command env cmd = some p →
        ∃ d₁ dir d₂,
          list_command_directory env.currentExe env.pathVar = d₁ ++ dir :: d₂
          ∧ p = dir ++ [commandExe env.exeSuffix cmd]
          ∧ pathExists env.fs p = true
          ∧ ∀ d ∈ d₁, pathExists env.fs (d ++ [commandExe env.exeSuffix cmd]) = false := by
  have hfc : find_command env cmd
      = Option.map (fun dir => dir ++ [commandExe env.exeSuffix cmd])
          ((list_command_directory env.currentExe env.pathVar).find?
            (fun dir => pathExists env.fs (dir ++ [commandExe env.exeSuffix cmd]))) := by
    unfold find_command
    rw [List.find?_map]
    rfl
  constructor
  · rw [hfc]
    cases hr : (list_command_directory env.currentExe env.pathVar).find?
        (fun dir => pathExists env.fs (dir ++ [commandExe env.exeSuffix cmd])) with
    | none =>
      simp only [Option.map_none', true_iff]
      rw [List.find?_eq_none] at hr
      intro dir hdir
      simpa using hr dir hdir
    | some d =>
      rw [Option.map_some']
      constructor
      · intro h
        cases h
      · intro hall
        exfalso
        have hmem := List.mem_of_find?_eq_some hr
        have htrue := List.find?_some hr
        rw [hall d hmem] at htrue
        cases htrue
  · intro p hp
    rw [hfc] at hp
    cases hr : (list_command_directory env.currentExe env.pathVar).find?
        (fun dir => pathExists env.fs (dir ++ [commandExe env.exeSuffix cmd])) with
    | none =>
      rw [hr] at hp
      cases hp
    | some dir =>
      rw [hr] at hp
      rw [Option.map_some'] at hp
      have hpd : dir ++ [commandExe env.exeSuffix cmd] = p := by injection hp
      obtain ⟨d₁, d₂, hdec, hpx, hall⟩ := find?_decomp _ _ _ hr
      refine ⟨d₁, dir, d₂, hdec, hpd.symm, ?_, hall⟩
      rw [← hpd]
      exact hpx

/-- C1, witness: the amended theorem applied to the concrete state of the
counterexample. -/
theorem claim1_witness :
    ∃ d₁ dir d₂,
      list_command_directory envDirPlugin.currentExe envDirPlugin.pathVar = d₁ ++ dir :: d₂
      ∧ (["d", "cargo-foo"] : FsPath) = dir ++ [commandExe envDirPlugin.exeSuffix "foo"]
      ∧ pathExists envDirPlugin.fs ["d", "cargo-foo"] = true
      ∧ ∀ d ∈ d₁, pathExists envDirPlugin.fs
          (d ++ [commandExe envDirPlugin.exeSuffix "foo"]) = false :=
  (claim1_resolve_first_existing envDirPlugin "foo").2 ["d", "cargo-foo"] (by decide)

/-- C4: a command name that matches a builtin is always dispatched to the
in-process builtin arm, for every environment — in particular even when a
plugin executable of the same name is discoverable — and never reaches
`execute_subcommand`. -/
theorem claim4_builtin_priority (env : Env) (command : String) (args : List String)
    (h : command ∈ builtin_names) :
    execute env command args = Dispatched.builtin command := by
  unfold execute
  cases hf : builtin_names.find? (fun n => command == n) with
  | none =>
    rw [List.find?_eq_none] at hf
    exact absurd (by simp) (hf command h)
  | some n =>
    have hn : command = n := by simpa using List.find?_some hf
    rw [← hn]

/-- C4, witness: `build` is dispatched as a builtin even in the environment
`envExit3`, whose search path contains nothing preventing plugin discovery. -/
theorem claim4_witness : execute envExit3 "build" [] = Dispatched.builtin "build" :=
  claim4_builtin_priority envExit3 "build" [] (by decide)

/-- C2: in every environment — directories empty, missing or unreadable
included — `list_commands` contains every builtin name, is duplicate-free,
is lexicographically sorted, and its order is determined by its membership
alone: any two environments whose listings have the same members produce
identical lists, so the iteration order never depends on directory scan
order. -/
theorem claim2_list_commands_invariants (env : Env) :
    (∀ b ∈ builtin_names, b ∈ list_commands env)
    ∧ (list_commands env).Nodup
    ∧ (list_commands env).Sorted (· < ·)
    ∧ ∀ env₂ : Env, (∀ c, c ∈ list_commands env ↔ c ∈ list_commands env₂) →
        list_commands env = list_commands env₂ := by
  haveI hirr : IsIrrefl String (· < ·) := ⟨lt_irrefl⟩
  haveI hanti : IsAntisymm String (· < ·) := ⟨fun a b h1 h2 => absurd h2 (lt_asymm h1)⟩
  have hsorted : ∀ e : Env, (list_commands e).Sorted (· < ·) := sorted_list_commands
  have hnodup : ∀ e : Env, (list_commands e).Nodup := fun e => (hsorted e).nodup
  refine ⟨?_, hnodup env, hsorted env, ?_⟩
  · intro b hb
    unfold list_commands
    exact (mem_foldl_insertSorted builtin_names _).mpr (Or.inl hb)
  · intro env₂ hext
    exact List.eq_of_perm_of_sorted
      ((List.perm_ext_iff_of_nodup (hnodup env) (hnodup env₂)).mpr hext)
      (hsorted env) (hsorted env₂)

/-- C2, witness: every builtin, e.g. `build`, is listed even in the
environment where every directory is missing and every filesystem operation
fails. -/
theorem claim2_witness : "build" ∈ list_commands envEmpty :=
  (claim2_list_commands_invariants envEmpty).1 "build" (by decide)

/-- C3: `find_closest` (on an explicit candidate set) returns `none` iff no
candidate has edit distance strictly below 4; otherwise it returns a
candidate of minimum distance, and ties are broken towards the candidate
encountered first in the candidates' iteration order (every earlier eligible
candidate has strictly greater distance). -/
theorem claim3_suggest (cands : List String) (cmd : String) :
    (find_closest_in cands cmd = none ↔ ∀ c ∈ cands, 4 ≤ lev_distance c cmd)
    ∧ ∀ c, find_closest_in cands cmd = some c →
        c ∈ cands ∧ lev_distance c cmd < 4
        ∧ (∀ d ∈ cands, lev_distance d cmd < 4 → lev_distance c cmd ≤ lev_distance d cmd)
        ∧ ∃ l₁ l₂, cands = l₁ ++ c :: l₂
            ∧ ∀ d ∈ l₁, lev_distance d cmd < 4 → lev_distance c cmd < lev_distance d cmd :=
  ⟨find_closest_in_eq_none, fun _ h => find_closest_in_eq_some h⟩

/-- C3, witness: on candidates `[build, bench]` and unknown `buil`, the
returned suggestion `build` satisfies all the properties of the theorem. -/
theorem claim3_witness :
    "build" ∈ ["build", "bench"]
    ∧ lev_distance "build" "buil" < 4
    ∧ (∀ d ∈ ["build", "bench"], lev_distance d "buil" < 4 →
        lev_distance "build" "buil" ≤ lev_distance d "buil")
    ∧ ∃ l₁ l₂, ["build", "bench"] = l₁ ++ "build" :: l₂
        ∧ ∀ d ∈ l₁, lev_distance d "buil" < 4 →
            lev_distance "build" "buil" < lev_distance d "buil" :=
  (claim3_suggest ["build", "bench"] "buil").2 "build" (by decide)

/-- C10: the executable predicate is false whenever `stat` fails, and on a
successful `stat` it is true exactly for a regular file whose permissions
contain the other-users execute bit; consequently every name in
`list_commands` is either a builtin or contributed by a directory entry on
which `is_executable` holds — a conventionally named regular file carrying
only owner/group execute bits can never contribute. -/
theorem claim10_executable_filter (env : Env) (p : FsPath) :
    (env.fs.stat p = none → is_executable env.fs p = false)
    ∧ (∀ k perm, env.fs.stat p = some ⟨k, perm⟩ →
        (is_executable env.fs p = true ↔
          k = FKind.regularFile ∧ perm &&& OTHER_EXECUTE = OTHER_EXECUTE))
    ∧ ∀ c, c ∈ list_commands env →
        c ∈ builtin_names
        ∨ ∃ dir ∈ list_command_directory env.currentExe env.pathVar,
            dir_contributes env dir c := by
  refine ⟨?_, ?_, ?_⟩
  · intro h
    unfold is_executable
    rw [h]
  · intro k perm h
    unfold is_executable
    rw [h]
    simp [Bool.and_eq_true]
  · intro c hc
    exact mem_list_commands hc

/-- C10, witness: on `fsGroupExec` the predicate rejects both an unreadable
path and the regular file `d/cargo-foo` whose permissions `0o750` lack the
other-execute bit. -/
theorem claim10_witness :
    is_executable envGroupExec.fs ["nofile"] = false
    ∧ is_executable envGroupExec.fs ["d", "cargo-foo"] = false := by
  refine ⟨(claim10_executable_filter envGroupExec ["nofile"]).1 (by decide), ?_⟩
  have h := (claim10_executable_filter envGroupExec ["d", "cargo-foo"]).2.1
    FKind.regularFile 0o750 (by decide)
  have hno : ¬(FKind.regularFile = FKind.regularFile
      ∧ 0o750 &&& OTHER_EXECUTE = OTHER_EXECUTE) := by decide
  cases hb : is_executable envGroupExec.fs ["d", "cargo-foo"] with
  | false => rfl
  | true => exact absurd (h.mp hb) hno

/-- C5: a resolved plugin whose child exits normally with code `N`
(`0 ≤ N < 256`) yields exit code exactly `N` with an empty (suppressed)
message when `N ≠ 0`, and no error report at all when `N = 0`. -/
theorem claim5_exit_code_passthrough (env : Env) (cmd : String) (args : List String)
    (p : FsPath) (N : Nat)
    (hfind : find_command env cmd = some p)
    (hspawn : env.spawn p args = Except.ok (ProcessExit.exitStatus N))
    (hN : N < 256) :
    (N ≠ 0 → execute_subcommand env cmd args = Outcome.error "" (N : Int))
    ∧ (N = 0 → execute_subcommand env cmd args = Outcome.ok) := by
  have hcast : asI32 N = (N : Int) := by
    unfold asI32
    rw [Nat.mod_eq_of_lt (by omega), if_pos (by omega)]
  constructor
  · intro hne
    cases N with
    | zero => exact absurd rfl hne
    | succ n =>
      have hc : asI32 (n + 1) = ((n + 1 : Nat) : Int) := hcast
      simp only [execute_subcommand, hfind, hspawn, hc]
  · intro h0
    subst h0
    simp only [execute_subcommand, hfind, hspawn]

/-- C5, witness: a child exiting with code 3 produces exit code 3 and the
empty message. -/
theorem claim5_witness : execute_subcommand envExit3 "foo" [] = Outcome.error "" 3 :=
  (claim5_exit_code_passthrough envExit3 "foo" [] ["d", "cargo-foo"] 3
    (by decide) rfl (by decide)).1 (by decide)

/-- C6: a resolved plugin terminated by signal `S` yields exit code exactly
`S`, and the error message mentions `S` (the rendering of `S` occurs in it). -/
theorem claim6_signal_passthrough (env : Env) (cmd : String) (args : List String)
    (p : FsPath) (S : Nat)
    (hfind : find_command env cmd = some p)
    (hspawn : env.spawn p args = Except.ok (ProcessExit.exitSignal S))
    (hS : S < 2 ^ 31) :
    execute_subcommand env cmd args
      = Outcome.error ("subcommand failed with signal: " ++ toString S) (S : Int)
    ∧ ∃ pre post,
        "subcommand failed with signal: " ++ toString S = pre ++ toString S ++ post := by
  have hcast : asI32 S = (S : Int) := by
    unfold asI32
    rw [Nat.mod_eq_of_lt (by omega), if_pos (by omega)]
  constructor
  · simp only [execute_subcommand, hfind, hspawn, hcast]
  · exact ⟨"subcommand failed with signal: ", "", by rw [String.append_empty]⟩

/-- C6, witness: a child killed by signal 9 produces exit code 9 and a
message mentioning 9. -/
theorem claim6_witness :
    execute_subcommand envSig9 "foo" []
      = Outcome.error ("subcommand failed with signal: " ++ toString 9) (9 : Int)
    ∧ ∃ pre post,
        "subcommand failed with signal: " ++ toString 9 = pre ++ toString 9 ++ post :=
  claim6_signal_passthrough envSig9 "foo" [] ["d", "cargo-foo"] 9
    (by decide) rfl (by decide)

/-- C7, counterexample: with `d/cargo-build` resolvable but its launch
failing with `FileNotFound`, the dispatcher reports the plain
`No such subcommand` (exit 127) even though the known command `build` is at
edit distance 0 (< 4); contrary to the claim, no `Did you mean` suggestion is
included in that message. -/
theorem claim7_counterexample :
    execute_subcommand envFNF "build" [] = Outcome.error "No such subcommand" 127
    ∧ "build" ∈ list_commands envFNF
    ∧ lev_distance "build" "build" < 4
    ∧ ¬ ("Did you mean".data <:+: "No such subcommand".data) := by
  refine ⟨by decide, by decide, by decide, by decide⟩

/-- C7, amended: an invocation whose command resolves to no plugin yields
exit code 127 with a `No such subcommand` message carrying a `Did you mean`
suggestion exactly when some known command is within edit distance 3; an
invocation whose resolved plugin fails to launch with file-not-found also
yields exit code 127 and `No such subcommand`, but always without a
suggestion. -/
theorem claim7_subcommand_not_found (env : Env) (cmd : String) (args : List String) :
    (find_command env cmd = none →
      ((∀ c ∈ list_commands env, 4 ≤ lev_distance c cmd) →
          execute_subcommand env cmd args = Outcome.error "No such subcommand" 127)
      ∧ ((∃ c ∈ list_commands env, lev_distance c cmd < 4) →
          ∃ c, c ∈ list_commands env ∧ lev_distance c cmd < 4
            ∧ execute_subcommand env cmd args
              = Outcome.error ("No such subcommand\n\n\tDid you mean `" ++ c ++ "`?\n") 127))
    ∧ ∀ p e, find_command env cmd = some p → env.spawn p args = Except.error e →
        e.kind = IoErrorKind.fileNotFound →
        execute_subcommand env cmd args = Outcome.error "No such subcommand" 127 := by
  constructor
  · intro hfind
    constructor
    · intro hfar
      have hn2 : find_closest env cmd = none := find_closest_in_eq_none.mpr hfar
      simp only [execute_subcommand, hfind, hn2]
    · intro ⟨c0, hc0, hlt0⟩
      have hsome : find_closest env cmd ≠ none := by
        intro hn
        have := find_closest_in_eq_none.mp hn c0 hc0
        omega
      obtain ⟨c, hc⟩ : ∃ c, find_closest env cmd = some c := by
        cases hcc : find_closest env cmd with
        | none => exact absurd hcc hsome
        | some c => exact ⟨c, rfl⟩
      obtain ⟨hmem, hlt, _, _⟩ := find_closest_in_eq_some hc
      refine ⟨c, hmem, hlt, ?_⟩
      have hc2 : find_closest env cmd = some c := hc
      simp only [execute_subcommand, hfind, hc2]
  · intro p e hfind hspawn hkind
    simp only [execute_subcommand, hfind, hspawn, hkind]
    simp

set_option maxRecDepth 4000 in
/-- C7, witness: the unknown command `xyzzyplugh`, far from every known
command, yields the plain `No such subcommand` with exit code 127. -/
theorem claim7_witness :
    execute_subcommand envEmpty "xyzzyplugh" [] = Outcome.error "No such subcommand" 127 :=
  ((claim7_subcommand_not_found envEmpty "xyzzyplugh" []).1 (by decide)).1 (by decide)

/-- C9: whenever the path source and root package resolve, a lock-file
loader that finds no lock file makes `pkgid` fail with the missing-lockfile
error — the `Except` result carries no partial value — and, when the lock
file loads and no specifier is given, `pkgid` returns the project's own
package identifier rendered as a specifier. -/
theorem claim9_pkgid_lockfile (w : PkgidWorld) (mp : FsPath) (sp : Option String)
    (s0 s1 : PathSrc) (pkg : Package)
    (h1 : w.for_path mp.dropLast = Except.ok s0)
    (h2 : w.update s0 = Except.ok s1)
    (h3 : w.root_package s1 = Except.ok pkg) :
    (w.load_lockfile (pkg.root ++ ["Cargo.lock"]) pkg.package_id.source_id
        = Except.ok none →
      pkgid w mp sp = Except.error "A Cargo.lock must exist for this command")
    ∧ ∀ r, w.load_lockfile (pkg.root ++ ["Cargo.lock"]) pkg.package_id.source_id
        = Except.ok (some r) →
      pkgid w mp none = Except.ok (PackageIdSpec.from_package_id pkg.package_id) := by
  constructor
  · intro hlock
    unfold pkgid
    rw [h1, except_bind_ok, h2, except_bind_ok, h3, except_bind_ok]
    simp only [hlock, except_bind_ok]
  · intro r hlock
    unfold pkgid
    rw [h1, except_bind_ok, h2, except_bind_ok, h3, except_bind_ok]
    simp only [hlock, except_bind_ok]
    rfl

/-- C9, witness: on a world with no lock file `pkgid` fails with the
missing-lockfile message, and on a world with one (and no specifier) it
returns the project's own identifier in specifier form. -/
theorem claim9_witness :
    pkgid worldNoLock ["proj", "Cargo.toml"] none
        = Except.error "A Cargo.lock must exist for this command"
    ∧ pkgid worldLock ["proj", "Cargo.toml"] none
        = Except.ok (PackageIdSpec.from_package_id pkgT.package_id) :=
  ⟨(claim9_pkgid_lockfile worldNoLock ["proj", "Cargo.toml"] none ⟨0⟩ ⟨0⟩ pkgT
      rfl rfl rfl).1 rfl,
   (claim9_pkgid_lockfile worldLock ["proj", "Cargo.toml"] none ⟨0⟩ ⟨0⟩ pkgT
      rfl rfl rfl).2 resolveT rfl⟩

end CargoSpec
